import Mathlib

/-
  Verification of the Honeycomb lock-free subsystem
  (HazardMem.h, List.h, Queue.h, SpscDeque.h) against its specification.

  The C++ sources are shallowly embedded: machine words become Nat/Int,
  atomic cells become plain state fields with explicit sequential update
  order, fallible code returns Option.  Concurrency is modelled where a
  claim requires it by an explicit interference point between two
  sequential steps; otherwise each operation is embedded as the sequential
  execution of its source control flow (every CAS whose expected value was
  just read succeeds).
-/

namespace Honeycomb

namespace HazardMem

/-- Node identifiers stand for the node addresses handed out by the pool. -/
abbrev NodeId := Nat

/-- Thresholds fixed by the HazardMem constructor (HazardMem.h, constructor
initializer list): threshClean as written in the source. -/
def threshClean (threadMax hazardMax linkMax linkDelMax : Int) : Int :=
  threadMax * (hazardMax + linkMax + linkDelMax + 1)

/-- threshScan as written in the source: a conditional expression choosing
hazardMax*2 when it is below threshClean, else threshClean. -/
def threshScan (threadMax hazardMax linkMax linkDelMax : Int) : Int :=
  if hazardMax * 2 < threshClean threadMax hazardMax linkMax linkDelMax
  then hazardMax * 2
  else threshClean threadMax hazardMax linkMax linkDelMax

/-- State visible to casRef/storeRef: the link cell's data word plus the
ref count and trace flag of every node (HazardMemNode.ref, .trace). -/
structure RefState where
  link : Int
  ref : NodeId → Int
  trace : NodeId → Bool

/-- Elementary side effects performed by casRef after a successful CAS, in
program order. -/
inductive RefEvent where
  | incRef (n : NodeId)
  | clearTrace (n : NodeId)
  | decRef (n : NodeId)
deriving DecidableEq, Repr

/-- Apply one casRef side effect to the state. -/
def applyEvent (s : RefState) : RefEvent → RefState
  | RefEvent.incRef n =>
      { s with ref := fun m => if m = n then s.ref m + 1 else s.ref m }
  | RefEvent.clearTrace n =>
      { s with trace := fun m => if m = n then false else s.trace m }
  | RefEvent.decRef n =>
      { s with ref := fun m => if m = n then s.ref m - 1 else s.ref m }

/-- HazardMem::casRef.  ptr is the config Link's pointer decoding of a data
word (nil decodes to none).  On CAS success the source increments the new
node's ref and clears its trace, then decrements the old node's ref; the
returned event list records those statements in program order.  On CAS
failure nothing is touched. -/
def casRef (ptr : Int → Option NodeId) (s : RefState) (val old : Int) :
    Bool × RefState × List RefEvent :=
  if s.link = old then
    let evs : List RefEvent :=
      (match ptr val with
        | some n => [RefEvent.incRef n, RefEvent.clearTrace n]
        | none => []) ++
      (match ptr old with
        | some n => [RefEvent.decRef n]
        | none => [])
    (true, evs.foldl applyEvent { s with link := val }, evs)
  else
    (false, s, [])

/-- Per-thread hazard record of a node (HazardMemNode::Hazard): index is the
slot claimed in this thread's hazard array (-1 means none), ref the number
of holds this thread has on the node. -/
structure Hazard where
  index : Int
  ref : Int
deriving DecidableEq, Repr

/-- Node metadata fields of HazardMemNode: owning pool id, global reference
count, trace flag and delete flag. -/
structure NodeMeta where
  threadId : Int
  ref : Int
  trace : Bool
  del : Bool
deriving DecidableEq, Repr

/-- The state touched by createNode/ref/deRefLink for a single calling
thread: the thread's hazard array and index free list (ThreadData.hazards,
ThreadData.hazardFreeList, stored here with the stack top first, matching
the vector's back), the thread-local Hazard record of every node, and the
metadata of every node. -/
structure HazState where
  hazards : List (Option NodeId)
  freeList : List Nat
  hrec : NodeId → Hazard
  meta : NodeId → NodeMeta

/-- Modelled from the spec: FreeList.h is not among the sources; per the
spec the node free list constructs a node in the calling thread's pool and
stamps its threadId.  The remaining field values come from the
HazardMemNode default constructor in HazardMem.h (ref 0, trace false, del
false) and the fresh thread-local Hazard record (index -1, ref 0). -/
def freeListConstruct (tid : Int) (n : NodeId) (s : HazState) : HazState :=
  { s with
    meta := fun m => if m = n then ⟨tid, 0, false, false⟩ else s.meta m,
    hrec := fun m => if m = n then ⟨-1, 0⟩ else s.hrec m }

/-- HazardMem::ref.  Increments the calling thread's hazard hold count on
the node; on the first hold it claims a hazard index from the free list and
publishes the node there.  Returns none when the hazard free list is empty,
which the source treats as an assertion failure. -/
def refNode (n : NodeId) (s : HazState) : Option HazState :=
  let h := s.hrec n
  if h.ref > 0 then
    some { s with hrec := fun m => if m = n then ⟨h.index, h.ref + 1⟩ else s.hrec m }
  else
    match s.freeList with
    | [] => none
    | i :: rest =>
        some { s with
          hrec := fun m => if m = n then ⟨(i : Int), h.ref + 1⟩ else s.hrec m,
          freeList := rest,
          hazards := s.hazards.set i (some n) }

/-- HazardMem::createNode: construct a node from the free list pool, then
add the caller's reference via ref().  n is the fresh node chosen by the
pool. -/
def createNode (tid : Int) (n : NodeId) (s : HazState) : Option HazState :=
  refNode n (freeListConstruct tid n s)

/-- HazardMem::deRefLink, sequential execution (the link cell is not
concurrently modified, so the snapshot/publish/re-read loop exits on its
first iteration).  linkVal is the pointer stored in the link.  The hazard
slot at the top of the free list is written with the snapshot; when the
pointer is non-nil and this thread already holds the node the slot is
cleared again and the free list is untouched, otherwise the slot is
consumed.  none models the assertion failure on an empty free list. -/
def deRefLink (linkVal : Option NodeId) (s : HazState) :
    Option (Option NodeId × HazState) :=
  match s.freeList with
  | [] => none
  | i :: rest =>
    let s1 := { s with hazards := s.hazards.set i linkVal }
    match linkVal with
    | none => some (none, s1)
    | some nd =>
      let h := s1.hrec nd
      if h.ref > 0 then
        some (some nd,
          { s1 with
            hrec := fun m => if m = nd then ⟨h.index, h.ref + 1⟩ else s1.hrec m,
            hazards := s1.hazards.set i none })
      else
        some (some nd,
          { s1 with
            hrec := fun m => if m = nd then ⟨(i : Int), h.ref + 1⟩ else s1.hrec m,
            freeList := rest })

/-- A reclamation entry (ThreadData::DelNode) as walked by phase 3 of scan:
the deleted node it tracks, the claim count held by concurrent cleanUpAll
calls, and the done flag. -/
structure DelNode where
  node : NodeId
  claim : Nat
  done : Bool
deriving DecidableEq, Repr

/-- Accumulated outcome of the phase-3 walk of scan: terminateNode calls
with their concurrent flag in program order, nodes destructed back to the
pool, entries returned to the del-node free list, and the rebuilt list of
entries that could not be reclaimed (source prepends, so it ends up in
reverse walk order). -/
structure ScanResult where
  events : List (NodeId × Bool)
  freed : List NodeId
  freeGain : List DelNode
  newDel : List DelNode
deriving DecidableEq, Repr

/-- Phase 3 of HazardMem::scan: walk the local entries popped from delHead.
When the entry's node has ref 0, trace set, and is in none of the hazard
snapshots: with claim 0 the node is terminated non-concurrently, the entry
returns to the free list and the node is destructed; with claim positive
the node is terminated concurrently and the entry is re-queued marked
done.  Every other entry is re-queued unchanged. -/
def scanPhase3 (ref : NodeId → Int) (trace : NodeId → Bool)
    (hazards : List NodeId) : List DelNode → ScanResult → ScanResult
  | [], acc => acc
  | e :: rest, acc =>
    let n := e.node
    if ref n = 0 ∧ trace n = true ∧ ¬ n ∈ hazards then
      if e.claim = 0 then
        scanPhase3 ref trace hazards rest
          { acc with
            events := acc.events ++ [(n, false)],
            freeGain := acc.freeGain ++ [e],
            freed := acc.freed ++ [n] }
      else
        scanPhase3 ref trace hazards rest
          { acc with
            events := acc.events ++ [(n, true)],
            newDel := { e with done := true } :: acc.newDel }
    else
      scanPhase3 ref trace hazards rest { acc with newDel := e :: acc.newDel }

/-- Phase 1 of HazardMem::scan: for each local entry whose node has ref 0,
set its trace flag, then re-read ref and clear trace again if it became
non-zero (sequentially the re-read returns the same value). -/
def scanPhase1 (ref : NodeId → Int) :
    List DelNode → (NodeId → Bool) → NodeId → Bool
  | [], trace => trace
  | e :: rest, trace =>
    let t1 : NodeId → Bool :=
      if ref e.node = 0 then
        let t : NodeId → Bool := fun k => if k = e.node then true else trace k
        if ref e.node ≠ 0 then fun k => if k = e.node then false else t k
        else t
      else trace
    scanPhase1 ref rest t1

/-- Phase 2 of HazardMem::scan: collect every node published in any
thread's hazard array into delHazards. -/
def collectHazards (tds : List (List (Option NodeId))) : List NodeId :=
  tds.foldl
    (fun acc hz =>
      hz.foldl
        (fun acc o =>
          match o with
          | some n => acc ++ [n]
          | none => acc)
        acc)
    []

/-- Concrete decoding of link data words used by witnesses: word 0 is the
nil pointer, any other word names the node with that number. -/
def ptrExample : Int → Option NodeId := fun d => if d = 0 then none else some d.toNat

/-- Concrete link state used by the casRef witness. -/
def refStateExample : RefState := ⟨0, fun _ => 0, fun _ => false⟩

/-- Concrete thread state used by the createNode and deRefLink witnesses:
two empty hazard slots with both indices free. -/
def hazStateExample : HazState :=
  ⟨[none, none], [1, 0], fun _ => ⟨-1, 0⟩, fun _ => ⟨0, 0, false, false⟩⟩

/-- HazardMem::scan assembled from its three phases over this thread's
entry list and every thread's hazard array. -/
def scan (ref : NodeId → Int) (trace : NodeId → Bool)
    (allHazards : List (List (Option NodeId))) (delHead : List DelNode) :
    ScanResult :=
  scanPhase3 ref (scanPhase1 ref delHead trace) (collectHazards allHazards)
    delHead ⟨[], [], [], []⟩

end HazardMem

namespace Queue

/-- Tagged handle (FreeList::TaggedHandle).  Modelled from the spec:
FreeList.h is not among the sources; per the spec a tagged handle is a
pool slot plus a monotonic tag, nil handles still carry a tag, a handle
converts to true exactly when its slot is non-nil, and nextTag yields the
incremented tag carried by the next publication. -/
structure TaggedHandle where
  slot : Option Nat
  tag : Nat
deriving DecidableEq, Repr

/-- Truth value of a tagged handle, as used by if (next) in the source. -/
def TaggedHandle.isNil (h : TaggedHandle) : Bool := h.slot.isNone

/-- TaggedHandle::nextTag. -/
def TaggedHandle.nextTag (h : TaggedHandle) : Nat := h.tag + 1

/-- A queue node (Queue::Node): the value and the tagged next handle. -/
structure Node (V : Type) where
  val : V
  next : TaggedHandle
deriving DecidableEq, Repr

/-- Queue state: the pool slots, head and tail handles, size counter.
FreeList::destroy recycling is not tracked — a destroyed slot keeps its
stale contents until reuse, as in the pool.  The source counter is
unsigned szt; the claims settled here do not depend on wrap
behaviour, so an integer is used. -/
structure QState (V : Type) where
  nodes : Nat → Node V
  head : TaggedHandle
  tail : TaggedHandle
  size : Int

/-- FreeList::deref of a tagged handle.  Head and tail always name the
dummy chain, so nil never reaches deref in the queue. -/
def deref (s : QState V) (h : TaggedHandle) : Node V := s.nodes (h.slot.getD 0)

/-- Queue::pop embedded as its retry loop.  interfere is the state change
performed by other threads at the one interference point this model
exposes — after the value copy into the output, before the head CAS; the
sequential (uninterfered) run passes the identity.  The comparison
head.handle() == tail compares the head's slot with the tail's slot.
Returns none when the fuel runs out; otherwise the popped flag, the final
value of the caller's output argument (initially out) and the final
state. -/
def popLoop (interfere : QState V → QState V) :
    Nat → QState V → Option V → Option (Bool × Option V × QState V)
  | 0, _, _ => none
  | Nat.succ fuel, s, out =>
    let head := s.head
    let tail := s.tail
    let next := (deref s head).next
    if s.head ≠ head then popLoop interfere fuel s out
    else if head.slot = tail.slot then
      if next.isNil then some (false, out, s)
      else
        let s1 := if s.tail = tail then { s with tail := ⟨next.slot, tail.nextTag⟩ } else s
        popLoop interfere fuel s1 out
    else if next.isNil then popLoop interfere fuel s out
    else
      let out1 := some (deref s next).val
      let s1 := interfere s
      if s1.head = head then
        some (true, out1, { s1 with head := ⟨next.slot, head.nextTag⟩, size := s1.size - 1 })
      else popLoop interfere fuel s1 out1

/-- Queue::front embedded as its retry loop, sequential (front never
mutates the queue). -/
def frontLoop : Nat → QState V → Option V → Option (Bool × Option V × QState V)
  | 0, _, _ => none
  | Nat.succ fuel, s, out =>
    let head := s.head
    let tail := s.tail
    let next := (deref s head).next
    if s.head ≠ head then frontLoop fuel s out
    else if head.slot = tail.slot ∧ next.isNil then some (false, out, s)
    else if next.isNil then frontLoop fuel s out
    else
      let out1 := some (deref s next).val
      if s.head = head then some (true, out1, s)
      else frontLoop fuel s out1

/-- Queue::back embedded as its retry loop; the only mutation is the
helping advance of a lagging tail. -/
def backLoop : Nat → QState V → Option V → Option (Bool × Option V × QState V)
  | 0, _, _ => none
  | Nat.succ fuel, s, out =>
    let head := s.head
    let tail := s.tail
    let next := (deref s tail).next
    if s.tail ≠ tail then backLoop fuel s out
    else if ¬ next.isNil then
      let s1 := if s.tail = tail then { s with tail := ⟨next.slot, tail.nextTag⟩ } else s
      backLoop fuel s1 out
    else if head.slot = tail.slot then some (false, out, s)
    else
      let out1 := some (deref s tail).val
      if s.head = head ∧ s.tail = tail then some (true, out1, s)
      else backLoop fuel s out1

/-- One-element queue used by the pop counterexample: slot 0 is the dummy
whose next names slot 1 holding value 42. -/
def qOne : QState Nat :=
  ⟨fun i => if i = 0 then ⟨0, ⟨some 1, 1⟩⟩
    else if i = 1 then ⟨42, ⟨none, 1⟩⟩ else ⟨0, ⟨none, 0⟩⟩,
   ⟨some 0, 0⟩, ⟨some 1, 0⟩, 1⟩

/-- Interference used by the counterexample: a complete concurrent pop by
another thread, run to completion between the value copy and the head
CAS. -/
def qInterfere : QState Nat → QState Nat := fun s =>
  match popLoop id 4 s none with
  | some (_, _, s2) => s2
  | none => s

/-- Queue holding only the dummy node, for the sequential witnesses. -/
def qEmpty : QState Nat := ⟨fun _ => ⟨0, ⟨none, 0⟩⟩, ⟨some 0, 0⟩, ⟨some 0, 0⟩, 0⟩

end Queue

namespace LfList

/-- A list link word (List::Node::Link): node pointer plus the low
delete-mark bit. -/
structure Link where
  ptr : Option Nat
  d : Bool
deriving DecidableEq, Repr

/-- A list node: next and prev links and the payload. -/
structure Node (V : Type) where
  next : Link
  prev : Link
  data : V
deriving DecidableEq, Repr

/-- List state: the node memory, the head and tail sentinels (the list's
_head and _tail links point at them unmarked and never change), the
signed size counter and the log of nodes handed to deleteNode.  The
hazard bookkeeping of deRefLink/ref/releaseRef only touches HazardMem
thread state, never links, values or size, and is elided: deRefLink
returns the link's pointer. -/
structure LState (V : Type) where
  mem : Nat → Node V
  head : Nat
  tail : Nat
  sizeC : Int
  retired : List Nat

/-- A link cell location: the next or prev link of a node. -/
inductive Loc where
  | next (n : Nat)
  | prev (n : Nat)
deriving DecidableEq, Repr

/-- Read a link cell. -/
def readLoc (s : LState V) : Loc → Link
  | Loc.next n => (s.mem n).next
  | Loc.prev n => (s.mem n).prev

/-- Write a link cell. -/
def writeLoc (s : LState V) : Loc → Link → LState V
  | Loc.next n, l =>
    { s with mem := fun m => if m = n then { s.mem m with next := l } else s.mem m }
  | Loc.prev n, l =>
    { s with mem := fun m => if m = n then { s.mem m with prev := l } else s.mem m }

/-- Link::cas: store val and succeed exactly when the cell holds old. -/
def casLink (s : LState V) (loc : Loc) (val old : Link) : Bool × LState V :=
  if readLoc s loc = old then (true, writeLoc s loc val) else (false, s)

/-- List::setMark, sequential execution: set the delete mark of a link
cell (the CAS retry loop exits on its first iteration when
uncontended). -/
def setMark (s : LState V) (loc : Loc) : LState V :=
  let old := readLoc s loc
  if old.d then s else writeLoc s loc ⟨old.ptr, true⟩

/-- HazardMem::deleteNode as seen by the list memory: the node is handed
to the reclamation machinery (whose threshold bookkeeping lives in the
HazardMem thread state, elided here); links, values and size are
untouched. -/
def deleteNode (s : LState V) (n : Nat) : LState V :=
  { s with retired := s.retired ++ [n] }

/-- List::correctPrev embedded with fuel, following the source loop:
chase from prev toward node over tombstones, splicing out marked links
using the lastLink memory, then CAS node.prev to the found
predecessor. -/
def correctPrev (fuel : Nat) (s : LState V) (prev node : Nat)
    (lastLink : Option Nat) : Option (Nat × LState V) :=
  match fuel with
  | 0 => none
  | Nat.succ fuel =>
    let link := (s.mem node).prev
    if link.d then
      match lastLink with
      | some ll => some (ll, s)
      | none => some (prev, s)
    else
      let prev2_d := (s.mem prev).next.d
      match (s.mem prev).next.ptr with
      | none => none
      | some prev2 =>
        if prev2_d then
          match lastLink with
          | some ll =>
            let s1 := setMark s (Loc.prev prev)
            let s2 := (casLink s1 (Loc.next ll) ⟨some prev2, false⟩ ⟨some prev, false⟩).2
            correctPrev fuel s2 ll node none
          | none =>
            match (s.mem prev).prev.ptr with
            | none => none
            | some p2 => correctPrev fuel s p2 node none
        else
          if prev2 ≠ node then
            correctPrev fuel s prev2 node (some prev)
          else
            let c := casLink s (Loc.prev node) ⟨some prev, false⟩ link
            if c.1 then
              if (c.2.mem prev).prev.d then correctPrev fuel c.2 prev node lastLink
              else some (prev, c.2)
            else correctPrev fuel s prev node lastLink

/-- List::pop_front embedded as its retry loop; prev stays the head
sentinel until the winning CAS (the source reassigns it only right before
breaking).  out is the caller's output argument. -/
def popFrontLoop (cpFuel : Nat) :
    Nat → LState V → Nat → Option V → Option (Bool × Option V × LState V)
  | 0, _, _, _ => none
  | Nat.succ fuel, s, prev, out =>
    match (s.mem prev).next.ptr with
    | none => none
    | some node =>
      if node = s.tail then some (false, out, s)
      else
        let next_d := (s.mem node).next.d
        match (s.mem node).next.ptr with
        | none => none
        | some next =>
          if next_d then
            let s1 := setMark s (Loc.prev node)
            let s2 := (casLink s1 (Loc.next prev) ⟨some next, false⟩ ⟨some node, false⟩).2
            popFrontLoop cpFuel fuel s2 prev out
          else
            let c := casLink s (Loc.next node) ⟨some next, true⟩ ⟨some next, false⟩
            if c.1 then
              let s1 := { c.2 with sizeC := c.2.sizeC - 1 }
              match correctPrev cpFuel s1 prev next none with
              | none => none
              | some (_, s2) =>
                some (true, some (s2.mem node).data, deleteNode s2 node)
            else popFrontLoop cpFuel fuel c.2 prev out

/-- List::pop_front entry point: the loop starts from the head
sentinel. -/
def pop_front (fuel cpFuel : Nat) (s : LState V) (out : Option V) :
    Option (Bool × Option V × LState V) :=
  popFrontLoop cpFuel fuel s s.head out

/-- List::pop_back embedded as its retry loop; next is always the tail
sentinel (deRefLink of the constant _tail link). -/
def popBackLoop (cpFuel : Nat) :
    Nat → LState V → Nat → Option V → Option (Bool × Option V × LState V)
  | 0, _, _, _ => none
  | Nat.succ fuel, s, node, out =>
    if (s.mem node).next ≠ (⟨some s.tail, false⟩ : Link) then
      match correctPrev cpFuel s node s.tail none with
      | none => none
      | some (node2, s1) => popBackLoop cpFuel fuel s1 node2 out
    else if node = s.head then some (false, out, s)
    else
      let c := casLink s (Loc.next node) ⟨some s.tail, true⟩ ⟨some s.tail, false⟩
      if c.1 then
        let s1 := { c.2 with sizeC := c.2.sizeC - 1 }
        match (s1.mem node).prev.ptr with
        | none => none
        | some pv =>
          match correctPrev cpFuel s1 pv s.tail none with
          | none => none
          | some (_, s2) => some (true, some (s2.mem node).data, deleteNode s2 node)
      else popBackLoop cpFuel fuel s node out

/-- List::pop_back entry point: node starts as the tail's prev. -/
def pop_back (fuel cpFuel : Nat) (s : LState V) (out : Option V) :
    Option (Bool × Option V × LState V) :=
  match (s.mem s.tail).prev.ptr with
  | none => none
  | some nd => popBackLoop cpFuel fuel s nd out

/-- The marking loop of List::erase on the node under the caller's
iterator.  The inner prev-marking loop runs its single uncontended
iteration: its CAS expected value is read in the same step, so it cannot
fail sequentially. -/
def eraseLoop (cpFuel : Nat) :
    Nat → LState V → Nat → Option V → Option (Bool × Option V × LState V)
  | 0, _, _, _ => none
  | Nat.succ fuel, s, node, out =>
    let next_d := (s.mem node).next.d
    match (s.mem node).next.ptr with
    | none => none
    | some next =>
      if next_d then some (false, out, s)
      else
        let c := casLink s (Loc.next node) ⟨some next, true⟩ ⟨some next, false⟩
        if c.1 then
          let s1 := { c.2 with sizeC := c.2.sizeC - 1 }
          let bPrev := (s1.mem node).prev.d
          match (s1.mem node).prev.ptr with
          | none => none
          | some pv =>
            let s2 := if bPrev then s1
              else (casLink s1 (Loc.prev node) ⟨some pv, true⟩ ⟨some pv, false⟩).2
            match correctPrev cpFuel s2 pv next none with
            | none => none
            | some (_, s3) =>
              some (true, some (s3.mem node).data, deleteNode s3 node)
        else eraseLoop cpFuel fuel c.2 node out

/-- Iter operator++ embedded with fuel: advance over tombstones, helping
splice them out, landing on the next unmarked node or the tail
sentinel. -/
def iterInc : Nat → LState V → Nat → Option (Nat × LState V)
  | 0, _, _ => none
  | Nat.succ fuel, s, cur =>
    if cur = s.tail then some (cur, s)
    else
      match (s.mem cur).next.ptr with
      | none => none
      | some next =>
        let d := (s.mem next).next.d
        if d ∧ (s.mem cur).next ≠ (⟨some next, true⟩ : Link) then
          let s1 := setMark s (Loc.prev next)
          let s2 := (casLink s1 (Loc.next cur) ⟨(s1.mem next).next.ptr, false⟩
            ⟨some next, false⟩).2
          iterInc fuel s2 cur
        else
          if d then iterInc fuel s next else some (next, s)

/-- List::erase including its final iterator advance: returns the erased
flag, the output argument, the advanced cursor and the state. -/
def erase (fuel cpFuel incFuel : Nat) (s : LState V) (cur : Nat) (out : Option V) :
    Option (Bool × Option V × Nat × LState V) :=
  match eraseLoop cpFuel fuel s cur out with
  | none => none
  | some (erased, out1, s1) =>
    match iterInc incFuel s1 cur with
    | none => none
    | some (cur2, s2) => some (erased, out1, cur2, s2)

/-- List::size(): load the signed counter and clamp it to zero. -/
def size (s : LState V) : Nat := if s.sizeC > 0 then s.sizeC.toNat else 0

/-- One-element list used by witnesses: head sentinel 0, tail sentinel 1,
element node 2 holding 42. -/
def listOne : LState Nat :=
  ⟨fun i => if i = 0 then ⟨⟨some 2, false⟩, ⟨none, false⟩, 0⟩
    else if i = 2 then ⟨⟨some 1, false⟩, ⟨some 0, false⟩, 42⟩
    else if i = 1 then ⟨⟨none, false⟩, ⟨some 2, false⟩, 0⟩
    else ⟨⟨none, false⟩, ⟨none, false⟩, 0⟩,
   0, 1, 1, []⟩

/-- Empty list used by witnesses: the two sentinels linked directly. -/
def listEmpty : LState Nat :=
  ⟨fun i => if i = 0 then ⟨⟨some 1, false⟩, ⟨none, false⟩, 0⟩
    else if i = 1 then ⟨⟨none, false⟩, ⟨some 0, false⟩, 0⟩
    else ⟨⟨none, false⟩, ⟨none, false⟩, 0⟩,
   0, 1, 0, []⟩

/-- List whose single element node 2 is already marked deleted, used by
the erase-miss witness. -/
def listOneMarked : LState Nat :=
  ⟨fun i => if i = 0 then ⟨⟨some 2, false⟩, ⟨none, false⟩, 0⟩
    else if i = 2 then ⟨⟨some 1, true⟩, ⟨some 0, true⟩, 42⟩
    else if i = 1 then ⟨⟨none, false⟩, ⟨some 0, false⟩, 0⟩
    else ⟨⟨none, false⟩, ⟨none, false⟩, 0⟩,
   0, 1, 0, [2]⟩

/-- List state with a negative size counter, used by the size-clamp
witness (the counter may be transiently negative under concurrency). -/
def listNeg : LState Nat :=
  ⟨fun _ => ⟨⟨none, false⟩, ⟨none, false⟩, 0⟩, 0, 1, -3, []⟩

end LfList

namespace SpscDeque

/-- Deque state (SpscDeque fields): the backing array as a list of slots
(none marks an unconstructed slot), its capacity, the element count, the
head and tail ring indices, and an allocation counter bumped whenever
setCapacity replaces the backing array, so that reallocation is
observable. -/
structure DState (V : Type) where
  store : List (Option V)
  capacity : Nat
  size : Nat
  head : Nat
  tail : Nat
  allocId : Nat
deriving DecidableEq, Repr

/-- SpscDeque::ringIndex. -/
def DState.ringIndex (s : DState V) (i : Nat) : Nat := i % s.capacity

/-- SpscDeque::setCapacity: return at once when the requested capacity
equals the current one; otherwise allocate a new array, copy the active
ring region to its front (destroying the elements that do not fit), and
reseat head to 0 and tail to the copied count. -/
def setCapacity (s : DState V) (capacity : Nat) : DState V :=
  if capacity = s.capacity then s
  else
    let size := if capacity < s.size then capacity else s.size
    let newStore : List (Option V) :=
      (List.range capacity).map (fun j =>
        if j < size then s.store.getD (s.ringIndex (s.head + j)) none else none)
    ⟨newStore, capacity, size, 0, size, s.allocId + 1⟩

/-- The construction loop of SpscDeque::resize: construct initVal into
the dif slots that follow the remaining active region. -/
def constructLoop (store : List (Option V)) (cap hd size0 : Nat)
    (initVal : V) : Nat → List (Option V)
  | 0 => store
  | Nat.succ k =>
      (constructLoop store cap hd size0 initVal k).set
        ((hd + size0 + k) % cap) (some initVal)

/-- SpscDeque::resize: setCapacity to the requested size, construct
initVal into the slots beyond the remaining elements, store the new size
and reseat tail onto head. -/
def resize (s : DState V) (size : Nat) (initVal : V) : DState V :=
  let s1 := setCapacity s size
  let dif := s1.capacity - s1.size
  { s1 with
    store := constructLoop s1.store s1.capacity s1.head s1.size initVal dif,
    size := size,
    tail := s1.head }

/-- Deque used by the resize counterexample: capacity 2 holding one
element at slot 1, so head is 1 and tail has wrapped to 0. -/
def dqEx : DState Nat := ⟨[none, some 5], 2, 1, 1, 0, 0⟩

end SpscDeque

end Honeycomb

namespace Honeycomb

namespace HazardMem

section Theorems

/-- C4: the thresholds fixed at construction satisfy
threshClean = threadMax * (hazardMax + linkMax + linkDelMax + 1) and
threshScan = min (hazardMax * 2) threshClean. -/
theorem thresholds_spec (threadMax hazardMax linkMax linkDelMax : Int) :
    threshClean threadMax hazardMax linkMax linkDelMax =
      threadMax * (hazardMax + linkMax + linkDelMax + 1) ∧
    threshScan threadMax hazardMax linkMax linkDelMax =
      min (hazardMax * 2) (threshClean threadMax hazardMax linkMax linkDelMax) := by
  refine ⟨rfl, ?_⟩
  unfold threshScan
  rcases lt_or_le (hazardMax * 2) (threshClean threadMax hazardMax linkMax linkDelMax) with h | h
  · simp [h, min_eq_left (le_of_lt h)]
  · simp [not_lt.mpr h, min_eq_right h]

/-- Setting a list position to the value it already holds leaves the list
unchanged. -/
theorem list_set_same {α : Type} (l : List α) (i : Nat) (a : α)
    (h : l[i]? = some a) : l.set i a = l := by
  induction l generalizing i with
  | nil => simp at h
  | cons x xs ih =>
    cases i with
    | zero =>
      simp only [List.getElem?_cons_zero, Option.some.injEq] at h
      simp [List.set, h]
    | succ k =>
      simp only [List.getElem?_cons_succ] at h
      simp [List.set, ih k h]

/-- C2: casRef succeeds exactly when the link holds old; on success the
link is set to val, the new node's ref count is incremented and its trace
flag cleared, the old node's ref count is decremented, and the recorded
side effects publish the new node strictly before unpublishing the old
one; on failure the link, the ref counts and the trace flags are all left
unmodified. -/
theorem casRef_spec (ptr : Int → Option NodeId) (s : RefState) (val old : Int) :
    ((casRef ptr s val old).1 = true ↔ s.link = old) ∧
    (s.link = old →
      ((casRef ptr s val old).2.1.link = val ∧
       (∀ n, (casRef ptr s val old).2.1.ref n =
          s.ref n + (if ptr val = some n then 1 else 0) -
            (if ptr old = some n then 1 else 0)) ∧
       (∀ n, ptr val = some n → (casRef ptr s val old).2.1.trace n = false) ∧
       (∀ n, ptr val ≠ some n → (casRef ptr s val old).2.1.trace n = s.trace n) ∧
       (∀ n m, ptr val = some n → ptr old = some m →
          ∃ i j : Nat, i < j ∧
            (casRef ptr s val old).2.2[i]? = some (RefEvent.incRef n) ∧
            (casRef ptr s val old).2.2[j]? = some (RefEvent.decRef m)))) ∧
    (s.link ≠ old → casRef ptr s val old = (false, s, [])) := by
  refine ⟨⟨fun h => ?_, fun hl => by simp [casRef, hl]⟩, fun hl => ?_, fun hl => by
    simp [casRef, hl]⟩
  · by_contra hl
    simp [casRef, hl] at h
  · rcases hv : ptr val with _ | a <;> rcases ho : ptr old with _ | b <;>
      simp only [casRef, hl, if_pos rfl, hv, ho, List.nil_append, List.append_nil,
        List.foldl, applyEvent]
    · exact ⟨rfl, fun n => by simp, fun n h => by simp [hv] at h,
        fun n _ => rfl, fun n m h => by simp at h⟩
    · refine ⟨rfl, fun n => ?_, fun n h => by simp [hv] at h,
        fun n _ => rfl, fun n m h => by simp at h⟩
      rcases eq_or_ne n b with rfl | hb
      · simp
      · simp [hb, Ne.symm hb]
    · refine ⟨rfl, fun n => ?_, fun n h => ?_, fun n h => ?_, fun n m _ hm => by
        simp [ho] at hm⟩
      · rcases eq_or_ne n a with rfl | ha
        · simp
        · simp [ha, Ne.symm ha]
      · simp only [hv, Option.some.injEq] at h
        subst h
        simp
      · have hna : n ≠ a := fun hna => h (by simp [hv, hna])
        simp [hna]
    · refine ⟨rfl, fun n => ?_, fun n h => ?_, fun n h => ?_,
        fun n m h hm => ?_⟩
      · rcases eq_or_ne n a with rfl | ha
        · rcases eq_or_ne n b with rfl | hb
          · simp
          · simp [hb, Ne.symm hb]
        · rcases eq_or_ne n b with rfl | hb
          · simp [ha, Ne.symm ha]
          · simp [ha, hb, Ne.symm ha, Ne.symm hb]
      · simp only [hv, Option.some.injEq] at h
        subst h
        simp
      · have hna : n ≠ a := fun hna => h (by simp [hv, hna])
        simp [hna]
      · simp only [hv, Option.some.injEq] at h
        simp only [ho, Option.some.injEq] at hm
        subst h
        subst hm
        exact ⟨0, 2, by norm_num, rfl, rfl⟩

/-- C3: createNode constructs the node in the calling thread's pool with
its metadata zeroed (ref 0, trace false, del false) before referencing,
then ref() gives the caller its single hazard hold: the returned node
still has metadata ref 0, trace false, del false and carries the caller's
thread id, while the thread's hazard record on it holds ref 1 with the
claimed hazard slot publishing the node. -/
theorem createNode_spec (tid : Int) (n : NodeId) (s : HazState)
    (i : Nat) (rest : List Nat) (hfl : s.freeList = i :: rest)
    (hlen : i < s.hazards.length) :
    (freeListConstruct tid n s).meta n = ⟨tid, 0, false, false⟩ ∧
    (createNode tid n s).isSome = true ∧
    ∀ s2, createNode tid n s = some s2 →
      s2.meta n = ⟨tid, 0, false, false⟩ ∧
      s2.hrec n = ⟨(i : Int), 1⟩ ∧
      s2.hazards[i]? = some (some n) ∧
      s2.freeList = rest := by
  have hfl1 : (freeListConstruct tid n s).freeList = i :: rest := hfl
  have hstep : createNode tid n s = some
      { hazards := s.hazards.set i (some n),
        freeList := rest,
        hrec := fun m => if m = n then ⟨(i : Int), 1⟩
          else (freeListConstruct tid n s).hrec m,
        meta := (freeListConstruct tid n s).meta } := by
    show refNode n (freeListConstruct tid n s) = _
    simp only [refNode, freeListConstruct, hfl1]
    norm_num
    rw [hfl]
  refine ⟨by simp [freeListConstruct], by simp [hstep], ?_⟩
  intro s2 h
  rw [hstep] at h
  obtain rfl := (Option.some.injEq _ _).mp h
  refine ⟨by simp [freeListConstruct], by simp, ?_, rfl⟩
  exact List.getElem?_set_eq_of_lt (some n) hlen

/-- C10: deRefLink on a link holding nil returns nil and leaves the
calling thread's hazard state unchanged: assuming the free-slot invariant
(the slot named by the top of the hazard free list is empty), the hazard
array, the hazard index free list, every per-thread hazard record and all
node metadata are exactly as before the call. -/
theorem deRefLink_nil_spec (s : HazState) (i : Nat) (rest : List Nat)
    (hfl : s.freeList = i :: rest) (hslot : s.hazards[i]? = some none) :
    ∃ s2, deRefLink none s = some (none, s2) ∧
      s2.hazards = s.hazards ∧ s2.freeList = s.freeList ∧
      s2.hrec = s.hrec ∧ s2.meta = s.meta := by
  have hstep : deRefLink none s =
      some (none, { s with hazards := s.hazards.set i none }) := by
    simp only [deRefLink, hfl]
  exact ⟨{ s with hazards := s.hazards.set i none }, hstep,
    list_set_same s.hazards i none hslot, rfl, rfl, rfl⟩

/-- C1: over any entry list, hazard snapshot and node states, the phase-3
walk of scan destructs exactly the nodes of the entries satisfying ref 0,
trace set, no hazard and claim 0, returning exactly those entries to the
free list; it emits a non-concurrent terminateNode for those and a
concurrent terminateNode for entries meeting the node conditions with a
positive claim, which are re-queued marked done; every other entry is
re-queued unchanged. -/
theorem scanPhase3_spec (ref : NodeId → Int) (trace : NodeId → Bool)
    (hazards : List NodeId) (entries : List DelNode) :
    scanPhase3 ref trace hazards entries ⟨[], [], [], []⟩ =
      ⟨entries.filterMap (fun e =>
          if ref e.node = 0 ∧ trace e.node = true ∧ ¬ e.node ∈ hazards then
            some (e.node, if e.claim = 0 then false else true)
          else none),
        (entries.filter (fun e =>
          decide (ref e.node = 0 ∧ trace e.node = true ∧ ¬ e.node ∈ hazards ∧
            e.claim = 0))).map (fun e => e.node),
        entries.filter (fun e =>
          decide (ref e.node = 0 ∧ trace e.node = true ∧ ¬ e.node ∈ hazards ∧
            e.claim = 0)),
        ((entries.filter (fun e =>
            ! decide (ref e.node = 0 ∧ trace e.node = true ∧ ¬ e.node ∈ hazards ∧
              e.claim = 0))).map (fun e =>
          if ref e.node = 0 ∧ trace e.node = true ∧ ¬ e.node ∈ hazards then
            { e with done := true }
          else e)).reverse⟩ := by
  have key : ∀ (entries : List DelNode) (acc : ScanResult),
      scanPhase3 ref trace hazards entries acc =
        ⟨acc.events ++ entries.filterMap (fun e =>
            if ref e.node = 0 ∧ trace e.node = true ∧ ¬ e.node ∈ hazards then
              some (e.node, if e.claim = 0 then false else true)
            else none),
          acc.freed ++ (entries.filter (fun e =>
            decide (ref e.node = 0 ∧ trace e.node = true ∧ ¬ e.node ∈ hazards ∧
              e.claim = 0))).map (fun e => e.node),
          acc.freeGain ++ entries.filter (fun e =>
            decide (ref e.node = 0 ∧ trace e.node = true ∧ ¬ e.node ∈ hazards ∧
              e.claim = 0)),
          ((entries.filter (fun e =>
              ! decide (ref e.node = 0 ∧ trace e.node = true ∧ ¬ e.node ∈ hazards ∧
                e.claim = 0))).map (fun e =>
            if ref e.node = 0 ∧ trace e.node = true ∧ ¬ e.node ∈ hazards then
              { e with done := true }
            else e)).reverse ++ acc.newDel⟩ := by
    intro entries
    induction entries with
    | nil => intro acc; simp [scanPhase3]
    | cons e rest ih =>
      intro acc
      by_cases hc : ref e.node = 0 ∧ trace e.node = true ∧ ¬ e.node ∈ hazards
      · by_cases h0 : e.claim = 0
        · simp [scanPhase3, hc, h0, ih, List.filter_cons, List.filterMap_cons]
        · simp [scanPhase3, hc, h0, ih, List.filter_cons, List.filterMap_cons]
      · have h4 : ¬ (ref e.node = 0 ∧ trace e.node = true ∧ ¬ e.node ∈ hazards ∧
            e.claim = 0) := fun h => hc ⟨h.1, h.2.1, h.2.2.1⟩
        have h5 : ¬ ref e.node = 0 ∨ trace e.node = false ∨ e.node ∈ hazards ∨
            ¬ e.claim = 0 := by
          by_contra hcon
          push_neg at hcon
          exact hc ⟨hcon.1, by simpa using hcon.2.1, hcon.2.2.1⟩
        simp [scanPhase3, hc, h4, h5, ih, List.filter_cons, List.filterMap_cons,
          List.reverse_cons, List.append_assoc]
  simpa using key entries ⟨[], [], [], []⟩

/-- Witness for casRef_spec at a concrete state: the success hypothesis
holds there and the CAS reports success with the link updated. -/
theorem casRef_spec_witness :
    refStateExample.link = 0 ∧
    (casRef ptrExample refStateExample 5 0).1 = true ∧
    (casRef ptrExample refStateExample 5 0).2.1.link = 5 :=
  ⟨rfl, (casRef_spec ptrExample refStateExample 5 0).1.mpr rfl,
    ((casRef_spec ptrExample refStateExample 5 0).2.1 rfl).1⟩

/-- Witness for createNode_spec at a concrete thread state: its hypotheses
hold there and the created node carries one hazard hold on slot 1. -/
theorem createNode_spec_witness :
    hazStateExample.freeList = 1 :: [0] ∧
    1 < hazStateExample.hazards.length ∧
    ∀ s2, createNode 3 7 hazStateExample = some s2 → s2.hrec 7 = ⟨(1 : Int), 1⟩ :=
  ⟨rfl, by decide, fun s2 h =>
    ((createNode_spec 3 7 hazStateExample 1 [0] rfl (by decide)).2.2 s2 h).2.1⟩

/-- Witness for deRefLink_nil_spec at a concrete thread state: its
hypotheses hold there and the hazard array is unchanged. -/
theorem deRefLink_nil_spec_witness :
    hazStateExample.freeList = 1 :: [0] ∧
    hazStateExample.hazards[1]? = some none ∧
    ∃ s2, deRefLink none hazStateExample = some (none, s2) ∧
      s2.hazards = hazStateExample.hazards := by
  obtain ⟨s2, h1, h2, _⟩ := deRefLink_nil_spec hazStateExample 1 [0] rfl (by decide)
  exact ⟨rfl, by decide, s2, h1, h2⟩

end Theorems

end HazardMem

namespace LfList

/-- writeLoc to one node's next link leaves every other node's record
unchanged. -/
theorem writeLoc_mem_ne_next {V : Type} (s : LState V) (k : Nat) (l : Link)
    (m : Nat) (h : m ≠ k) :
    (writeLoc s (Loc.next k) l).mem m = s.mem m := by
  simp [writeLoc, h]

/-- writeLoc to one node's prev link leaves every other node's record
unchanged. -/
theorem writeLoc_mem_ne_prev {V : Type} (s : LState V) (k : Nat) (l : Link)
    (m : Nat) (h : m ≠ k) :
    (writeLoc s (Loc.prev k) l).mem m = s.mem m := by
  simp [writeLoc, h]

/-- writeLoc to a node's next link rewrites only that field. -/
theorem writeLoc_next_self {V : Type} (s : LState V) (k : Nat) (l : Link) :
    (writeLoc s (Loc.next k) l).mem k = { s.mem k with next := l } := by
  simp [writeLoc]

/-- writeLoc to a node's prev link rewrites only that field. -/
theorem writeLoc_prev_self {V : Type} (s : LState V) (k : Nat) (l : Link) :
    (writeLoc s (Loc.prev k) l).mem k = { s.mem k with prev := l } := by
  simp [writeLoc]

/-- writeLoc leaves the head, tail, size and retired fields unchanged. -/
theorem writeLoc_frame {V : Type} (s : LState V) (loc : Loc) (l : Link) :
    (writeLoc s loc l).head = s.head ∧ (writeLoc s loc l).tail = s.tail ∧
    (writeLoc s loc l).sizeC = s.sizeC ∧ (writeLoc s loc l).retired = s.retired := by
  cases loc <;> simp [writeLoc]

/-- setMark of a node's prev link leaves every other node's record
unchanged. -/
theorem setMark_mem_ne {V : Type} (s : LState V) (k m : Nat) (h : m ≠ k) :
    (setMark s (Loc.prev k)).mem m = s.mem m := by
  by_cases hd : (readLoc s (Loc.prev k)).d = true
  · simp [setMark, hd]
  · simp [setMark, hd, writeLoc, h]

/-- setMark of a node's prev link sets exactly its mark bit (a no-op when
already marked). -/
theorem setMark_prev_self {V : Type} (s : LState V) (k : Nat) :
    (setMark s (Loc.prev k)).mem k =
      { s.mem k with prev := ⟨(s.mem k).prev.ptr, true⟩ } := by
  unfold setMark
  rcases hm : s.mem k with ⟨nl, ⟨pp, pd⟩, dv⟩
  cases pd with
  | true => simp [readLoc, hm]
  | false => simp [readLoc, hm, writeLoc]

/-- setMark leaves the head, tail, size and retired fields unchanged. -/
theorem setMark_frame {V : Type} (s : LState V) (loc : Loc) :
    (setMark s loc).head = s.head ∧ (setMark s loc).tail = s.tail ∧
    (setMark s loc).sizeC = s.sizeC ∧ (setMark s loc).retired = s.retired := by
  by_cases hd : (readLoc s loc).d = true
  · simp [setMark, hd]
  · simp only [setMark, hd, if_false, Bool.false_eq_true]
    exact writeLoc_frame s loc _

/-- writeLoc leaves the size counter unchanged. -/
theorem writeLoc_sizeC {V : Type} (s : LState V) (loc : Loc) (l : Link) :
    (writeLoc s loc l).sizeC = s.sizeC := (writeLoc_frame s loc l).2.2.1

/-- writeLoc leaves the retired log unchanged. -/
theorem writeLoc_retired {V : Type} (s : LState V) (loc : Loc) (l : Link) :
    (writeLoc s loc l).retired = s.retired := (writeLoc_frame s loc l).2.2.2

/-- writeLoc leaves the head sentinel unchanged. -/
theorem writeLoc_head {V : Type} (s : LState V) (loc : Loc) (l : Link) :
    (writeLoc s loc l).head = s.head := (writeLoc_frame s loc l).1

/-- writeLoc leaves the tail sentinel unchanged. -/
theorem writeLoc_tail {V : Type} (s : LState V) (loc : Loc) (l : Link) :
    (writeLoc s loc l).tail = s.tail := (writeLoc_frame s loc l).2.1

/-- setMark leaves the size counter unchanged. -/
theorem setMark_sizeC {V : Type} (s : LState V) (loc : Loc) :
    (setMark s loc).sizeC = s.sizeC := (setMark_frame s loc).2.2.1

/-- setMark leaves the retired log unchanged. -/
theorem setMark_retired {V : Type} (s : LState V) (loc : Loc) :
    (setMark s loc).retired = s.retired := (setMark_frame s loc).2.2.2

/-- setMark leaves the head sentinel unchanged. -/
theorem setMark_head {V : Type} (s : LState V) (loc : Loc) :
    (setMark s loc).head = s.head := (setMark_frame s loc).1

/-- setMark leaves the tail sentinel unchanged. -/
theorem setMark_tail {V : Type} (s : LState V) (loc : Loc) :
    (setMark s loc).tail = s.tail := (setMark_frame s loc).2.1

/-- Sequential effect of correctPrev when called with a hint prev whose
next link names a freshly marked node mid lying in front of node: the
walk advances onto mid, marks mid's prev, splices mid out of prev's next
link, CASes node's prev back to prev and returns prev. -/
theorem correctPrev_splice {V : Type} (c : Nat) (s : LState V)
    (prev mid node : Nat)
    (h1 : (s.mem node).prev = ⟨some mid, false⟩)
    (h2 : (s.mem prev).next = ⟨some mid, false⟩)
    (h3 : (s.mem mid).next = ⟨some node, true⟩)
    (h5 : (s.mem prev).prev.d = false)
    (hne1 : prev ≠ mid) (hne2 : prev ≠ node) (hne3 : mid ≠ node) :
    correctPrev (c + 3) s prev node none =
      some (prev,
        writeLoc (writeLoc (setMark s (Loc.prev mid))
          (Loc.next prev) ⟨some node, false⟩)
          (Loc.prev node) ⟨some prev, false⟩) := by
  have hne1s : mid ≠ prev := hne1.symm
  have hne2s : node ≠ prev := hne2.symm
  have hne3s : node ≠ mid := hne3.symm
  show correctPrev (Nat.succ (Nat.succ (Nat.succ c))) s prev node none = _
  simp only [correctPrev, h1, h2, h3, casLink, readLoc,
    setMark_mem_ne _ _ _ hne2s, setMark_mem_ne _ _ _ hne1,
    writeLoc_mem_ne_next _ _ _ _ hne2s, writeLoc_mem_ne_prev,
    writeLoc_next_self, writeLoc_prev_self]
  simp [hne3, hne1, hne2, hne2s, hne3s, h1, h2, h3, h5,
    setMark_mem_ne _ _ _ hne1, setMark_mem_ne _ _ _ hne3s,
    writeLoc_mem_ne_next _ _ _ _ hne2s, writeLoc_mem_ne_prev _ _ _ _ hne2,
    writeLoc_next_self]

/-- C7: pop_front returns false exactly when the first step of its retry
loop observes head.next pointing at the tail sentinel; otherwise it marks
the first element node's next link, unlinks it from head.next, stores its
value into the supplied output, and returns true. -/
theorem pop_front_spec {V : Type} (s : LState V) (p nx : Nat)
    (f c : Nat) (out : Option V)
    (h1 : (s.mem s.head).next = ⟨some p, false⟩)
    (hcase : p = s.tail ∨
      ((s.mem p).next = ⟨some nx, false⟩ ∧ (s.mem p).prev = ⟨some s.head, false⟩ ∧
       (s.mem nx).prev = ⟨some p, false⟩ ∧ (s.mem s.head).prev.d = false ∧
       p ≠ s.tail ∧ s.head ≠ p ∧ s.head ≠ nx ∧ p ≠ nx)) :
    ((pop_front (f + 1) (c + 3) s out).map (fun r => r.1) = some false ↔
      p = s.tail) ∧
    (p = s.tail → pop_front (f + 1) (c + 3) s out = some (false, out, s)) ∧
    (p ≠ s.tail →
      ∃ s2, pop_front (f + 1) (c + 3) s out =
          some (true, some ((s.mem p).data), s2) ∧
        (s2.mem s.head).next = ⟨some nx, false⟩ ∧
        (s2.mem p).next = ⟨some nx, true⟩ ∧
        (s2.mem nx).prev = ⟨some s.head, false⟩ ∧
        s2.sizeC = s.sizeC - 1 ∧
        s2.retired = s.retired ++ [p]) := by
  rcases hcase with hp | ⟨h2, h3, h4, h5, hp, hhp, hhn, hpn⟩
  · have hrun : pop_front (f + 1) (c + 3) s out = some (false, out, s) := by
      show popFrontLoop (c + 3) (Nat.succ f) s s.head out = _
      simp [popFrontLoop, h1, hp]
    exact ⟨by simp [hrun]; exact hp, fun _ => hrun, fun hq => absurd hp hq⟩
  · have hph : p ≠ s.head := hhp.symm
    have hnh : nx ≠ s.head := hhn.symm
    have hnp : nx ≠ p := hpn.symm
    have hsp : correctPrev (c + 3)
        { mem := (writeLoc s (Loc.next p) ⟨some nx, true⟩).mem, head := s.head,
          tail := s.tail, sizeC := s.sizeC - 1, retired := s.retired }
        s.head nx none =
      some (s.head, writeLoc (writeLoc (setMark
          { mem := (writeLoc s (Loc.next p) ⟨some nx, true⟩).mem, head := s.head,
            tail := s.tail, sizeC := s.sizeC - 1, retired := s.retired }
          (Loc.prev p))
        (Loc.next s.head) ⟨some nx, false⟩)
        (Loc.prev nx) ⟨some s.head, false⟩) := by
      apply correctPrev_splice
      · simp [writeLoc_mem_ne_next _ _ _ _ hnp, h4]
      · simp [writeLoc_mem_ne_next _ _ _ _ hhp, h1]
      · simp [writeLoc_next_self]
      · simp [writeLoc_mem_ne_next _ _ _ _ hhp, h5]
      · exact hhp
      · exact hhn
      · exact hpn
    have hrun : pop_front (f + 1) (c + 3) s out =
        some (true, some ((s.mem p).data),
          deleteNode
            (writeLoc (writeLoc (setMark
                { mem := (writeLoc s (Loc.next p) ⟨some nx, true⟩).mem,
                  head := s.head, tail := s.tail, sizeC := s.sizeC - 1,
                  retired := s.retired }
                (Loc.prev p))
              (Loc.next s.head) ⟨some nx, false⟩)
              (Loc.prev nx) ⟨some s.head, false⟩) p) := by
      show popFrontLoop (c + 3) (Nat.succ f) s s.head out = _
      simp only [popFrontLoop, h1, h2, casLink, readLoc]
      simp only [hp, Link.mk.injEq, and_true, and_false, if_false, if_true,
        Option.some.injEq, reduceCtorEq, ite_false, ite_true]
      simp only [writeLoc_head, writeLoc_tail, writeLoc_sizeC, writeLoc_retired]
      rw [hsp]
      simp [writeLoc_mem_ne_prev _ _ _ _ hpn, writeLoc_mem_ne_next _ _ _ _ hph,
        setMark_prev_self, writeLoc_next_self]
    refine ⟨by simp [hrun, hp], fun hq => absurd hq hp, fun _ => ?_⟩
    refine ⟨_, hrun, ?_, ?_, ?_, ?_, ?_⟩
    · simp [deleteNode, writeLoc_mem_ne_prev _ _ _ _ hhn, writeLoc_next_self,
        writeLoc_mem_ne_next, setMark_mem_ne, hph, hnh, hnp, hhp, hhn, hpn, h1]
    · simp [deleteNode, writeLoc_mem_ne_prev _ _ _ _ hpn,
        writeLoc_mem_ne_next _ _ _ _ hph, setMark_prev_self,
        writeLoc_next_self, hph, hnh, hnp, h2]
    · simp [deleteNode, writeLoc_prev_self]
    · simp [deleteNode, writeLoc_sizeC, setMark_sizeC]
    · simp [deleteNode, writeLoc_retired, setMark_retired]

/-- The iterator advance lands directly on the successor when that
successor is not marked. -/
theorem iterInc_land {V : Type} (g : Nat) (s : LState V) (cur nxt : Nat)
    (hc : cur ≠ s.tail)
    (h1 : (s.mem cur).next.ptr = some nxt)
    (h2 : (s.mem nxt).next.d = false) :
    iterInc (g + 1) s cur = some (nxt, s) := by
  show iterInc (Nat.succ g) s cur = _
  simp [iterInc, hc, h1, h2]

/-- The erase marking loop reports a miss at once when the node's next
link is already marked. -/
theorem eraseLoop_miss {V : Type} (cf f : Nat) (s : LState V) (node nxt : Nat)
    (out : Option V) (h1 : (s.mem node).next = ⟨some nxt, true⟩) :
    eraseLoop cf (f + 1) s node out = some (false, out, s) := by
  show eraseLoop cf (Nat.succ f) s node out = _
  simp [eraseLoop, h1]

/-- erase is the marking loop followed by one iterator advance. -/
theorem erase_eq {V : Type} (f cf g : Nat) (s : LState V) (cur : Nat)
    (out : Option V) (er : Bool) (out1 : Option V) (s1 : LState V)
    (cur2 : Nat) (s2 : LState V)
    (h1 : eraseLoop cf f s cur out = some (er, out1, s1))
    (h2 : iterInc g s1 cur = some (cur2, s2)) :
    erase f cf g s cur out = some (er, out1, cur2, s2) := by
  simp [erase, h1, h2]

/-- C6: on a live node n the first erase wins the next-mark CAS and
returns true, moving out the node's value and decrementing size once, and
its iterator advance lands on the successor; a second erase targeting the
same node returns false, leaves the output, the size and the whole state
untouched, and still advances its iterator to the successor. -/
theorem erase_spec {V : Type} (s : LState V) (n pv nx : Nat)
    (f c g f2 c2 g2 : Nat) (out out2 : Option V)
    (h1 : (s.mem n).next = ⟨some nx, false⟩)
    (h2 : (s.mem n).prev = ⟨some pv, false⟩)
    (h3 : (s.mem pv).next = ⟨some n, false⟩)
    (h4 : (s.mem nx).prev = ⟨some n, false⟩)
    (h5 : (s.mem pv).prev.d = false)
    (h6 : (s.mem nx).next.d = false)
    (hnt : n ≠ s.tail)
    (d1 : pv ≠ n) (d2 : pv ≠ nx) (d3 : n ≠ nx) :
    ∃ s2, erase (f + 1) (c + 3) (g + 1) s n out =
        some (true, some ((s.mem n).data), nx, s2) ∧
      (s2.mem n).next = ⟨some nx, true⟩ ∧
      s2.sizeC = s.sizeC - 1 ∧
      s2.retired = s.retired ++ [n] ∧
      (s2.mem pv).next = ⟨some nx, false⟩ ∧
      (s2.mem nx).prev = ⟨some pv, false⟩ ∧
      erase (f2 + 1) (c2 + 3) (g2 + 1) s2 n out2 =
        some (false, out2, nx, s2) := by
  have dn1 : n ≠ pv := d1.symm
  have dn3 : nx ≠ n := d3.symm
  have dnp : nx ≠ pv := d2.symm
  have hsp : correctPrev (c + 3)
      (writeLoc { mem := (writeLoc s (Loc.next n) ⟨some nx, true⟩).mem,
                  head := s.head, tail := s.tail, sizeC := s.sizeC - 1,
                  retired := s.retired }
        (Loc.prev n) ⟨some pv, true⟩) pv nx none =
      some (pv, writeLoc (writeLoc (setMark
          (writeLoc { mem := (writeLoc s (Loc.next n) ⟨some nx, true⟩).mem,
                      head := s.head, tail := s.tail, sizeC := s.sizeC - 1,
                      retired := s.retired }
            (Loc.prev n) ⟨some pv, true⟩)
          (Loc.prev n))
        (Loc.next pv) ⟨some nx, false⟩)
        (Loc.prev nx) ⟨some pv, false⟩) := by
    apply correctPrev_splice
    · simp [writeLoc_mem_ne_prev _ _ _ _ dn3, writeLoc_mem_ne_next _ _ _ _ dn3, h4]
    · simp [writeLoc_mem_ne_prev _ _ _ _ d1, writeLoc_mem_ne_next _ _ _ _ d1, h3]
    · simp [writeLoc_prev_self, writeLoc_next_self]
    · simp [writeLoc_mem_ne_prev _ _ _ _ d1, writeLoc_mem_ne_next _ _ _ _ d1, h5]
    · exact d1
    · exact d2
    · exact d3
  have hrunE : eraseLoop (c + 3) (f + 1) s n out =
      some (true, some ((s.mem n).data),
        deleteNode
          (writeLoc (writeLoc (setMark
              (writeLoc { mem := (writeLoc s (Loc.next n) ⟨some nx, true⟩).mem,
                          head := s.head, tail := s.tail, sizeC := s.sizeC - 1,
                          retired := s.retired }
                (Loc.prev n) ⟨some pv, true⟩)
              (Loc.prev n))
            (Loc.next pv) ⟨some nx, false⟩)
            (Loc.prev nx) ⟨some pv, false⟩) n) := by
    show eraseLoop (c + 3) (Nat.succ f) s n out = _
    simp only [eraseLoop, h1, casLink, readLoc]
    simp only [Link.mk.injEq, and_true, and_false, if_false, if_true,
      Option.some.injEq, reduceCtorEq, ite_false, ite_true]
    simp only [writeLoc_head, writeLoc_tail, writeLoc_sizeC, writeLoc_retired]
    simp only [writeLoc_next_self, h2]
    simp only [Link.mk.injEq, and_true, if_true, ite_true, ite_false]
    simp only [Bool.false_eq_true, if_false]
    rw [hsp]
    simp [writeLoc_mem_ne_prev _ _ _ _ d3, writeLoc_mem_ne_next _ _ _ _ dn1,
      setMark_prev_self, writeLoc_prev_self, writeLoc_next_self]
  refine ⟨deleteNode
      (writeLoc (writeLoc (setMark
          (writeLoc { mem := (writeLoc s (Loc.next n) ⟨some nx, true⟩).mem,
                      head := s.head, tail := s.tail, sizeC := s.sizeC - 1,
                      retired := s.retired }
            (Loc.prev n) ⟨some pv, true⟩)
          (Loc.prev n))
        (Loc.next pv) ⟨some nx, false⟩)
        (Loc.prev nx) ⟨some pv, false⟩) n, ?_, ?_, ?_, ?_, ?_, ?_, ?_⟩
  · apply erase_eq _ _ _ _ _ _ _ _ _ _ _ hrunE
    apply iterInc_land
    · simp [deleteNode, writeLoc_tail, setMark_tail, hnt]
    · simp [deleteNode, writeLoc_mem_ne_prev _ _ _ _ d3,
        writeLoc_mem_ne_next _ _ _ _ dn1, setMark_prev_self,
        writeLoc_prev_self, writeLoc_next_self]
    · simp [deleteNode, writeLoc_prev_self, writeLoc_mem_ne_next _ _ _ _ dnp,
        setMark_mem_ne _ _ _ dn3, writeLoc_mem_ne_prev _ _ _ _ dn3,
        writeLoc_mem_ne_next _ _ _ _ dn3, h6]
  · simp [deleteNode, writeLoc_mem_ne_prev _ _ _ _ d3,
      writeLoc_mem_ne_next _ _ _ _ dn1, setMark_prev_self,
      writeLoc_prev_self, writeLoc_next_self]
  · simp [deleteNode, writeLoc_sizeC, setMark_sizeC]
  · simp [deleteNode, writeLoc_retired, setMark_retired]
  · simp [deleteNode, writeLoc_mem_ne_prev _ _ _ _ d2, writeLoc_next_self]
  · simp [deleteNode, writeLoc_prev_self]
  · apply erase_eq
    · exact eraseLoop_miss _ _ _ _ nx _ (by
        simp [deleteNode, writeLoc_mem_ne_prev _ _ _ _ d3,
          writeLoc_mem_ne_next _ _ _ _ dn1, setMark_prev_self,
          writeLoc_prev_self, writeLoc_next_self])
    · apply iterInc_land
      · simp [deleteNode, writeLoc_tail, setMark_tail, hnt]
      · simp [deleteNode, writeLoc_mem_ne_prev _ _ _ _ d3,
          writeLoc_mem_ne_next _ _ _ _ dn1, setMark_prev_self,
          writeLoc_prev_self, writeLoc_next_self]
      · simp [deleteNode, writeLoc_prev_self, writeLoc_mem_ne_next _ _ _ _ dnp,
          setMark_mem_ne _ _ _ dn3, writeLoc_mem_ne_prev _ _ _ _ dn3,
          writeLoc_mem_ne_next _ _ _ _ dn3, h6]

/-- Witness for pop_front_spec: on the concrete one-element list its
hypotheses hold and pop_front pops the value 42. -/
theorem pop_front_spec_witness :
    (listOne.mem listOne.head).next = ⟨some 2, false⟩ ∧
    ∃ s2, pop_front 1 3 listOne none = some (true, some 42, s2) := by
  obtain ⟨s2, he, _⟩ :=
    (pop_front_spec listOne 2 1 0 0 none (by decide) (Or.inr (by decide))).2.2
      (by decide)
  refine ⟨by decide, s2, ?_⟩
  simpa [listOne] using he

/-- Witness for erase_spec: on the concrete one-element list its
hypotheses hold, the first erase yields 42 and the second misses. -/
theorem erase_spec_witness :
    (listOne.mem 2).next = ⟨some 1, false⟩ ∧
    ∃ s2, erase 1 3 1 listOne 2 none = some (true, some 42, 1, s2) ∧
      erase 1 3 1 s2 2 none = some (false, none, 1, s2) := by
  obtain ⟨s2, he1, _, _, _, _, _, he2⟩ :=
    erase_spec listOne 2 0 1 0 0 0 0 0 0 none none (by decide) (by decide)
      (by decide) (by decide) (by decide) (by decide) (by decide) (by decide)
      (by decide) (by decide)
  refine ⟨by decide, s2, ?_, he2⟩
  simpa [listOne] using he1

/-- C8: size() returns the signed size counter clamped to zero: as an
integer it equals the maximum of the counter and zero, and whenever the
counter is at most zero it returns zero. -/
theorem size_clamp_spec {V : Type} (s : LState V) :
    ((size s : Int) = max s.sizeC 0) ∧ (s.sizeC ≤ 0 → size s = 0) := by
  constructor
  · unfold size
    rcases lt_or_le 0 s.sizeC with h | h
    · rw [if_pos h, Int.toNat_of_nonneg (le_of_lt h)]
      exact (max_eq_left (le_of_lt h)).symm
    · rw [if_neg (not_lt.mpr h)]
      simp [max_eq_right h]
  · intro h
    simp [size, not_lt.mpr h]

/-- Witness for size_clamp_spec at a state whose counter is negative. -/
theorem size_clamp_spec_witness :
    listNeg.sizeC ≤ 0 ∧ size listNeg = 0 :=
  ⟨by decide, (size_clamp_spec listNeg).2 (by decide)⟩

end LfList

namespace Queue

/-- A sequential Queue::pop writes the output only in the iteration whose
head CAS succeeds, and that iteration returns true; so a false return
leaves the output untouched. -/
theorem popLoop_false_out {V : Type} (fuel : Nat) (s : QState V)
    (out : Option V) (res : Bool × Option V × QState V)
    (h : popLoop id fuel s out = some res) (hf : res.1 = false) :
    res.2.1 = out := by
  induction fuel generalizing s out with
  | zero => simp [popLoop] at h
  | succ fuel ih =>
    simp only [popLoop, id_eq, ne_eq, not_true_eq_false, if_false,
      Bool.false_eq_true, ite_false, ite_true, if_pos rfl] at h
    by_cases hA : s.head.slot = s.tail.slot
    · rw [if_pos hA] at h
      by_cases hB : (deref s s.head).next.isNil = true
      · rw [if_pos hB] at h
        cases h
        rfl
      · rw [if_neg hB] at h
        exact ih _ _ h
    · rw [if_neg hA] at h
      by_cases hB : (deref s s.head).next.isNil = true
      · rw [if_pos hB] at h
        exact ih _ _ h
      · rw [if_neg hB] at h
        cases h
        simp at hf

/-- A sequential Queue::front writes the output only in the iteration
whose consistency re-check passes, and that iteration returns true. -/
theorem frontLoop_false_out {V : Type} (fuel : Nat) (s : QState V)
    (out : Option V) (res : Bool × Option V × QState V)
    (h : frontLoop fuel s out = some res) (hf : res.1 = false) :
    res.2.1 = out := by
  induction fuel generalizing s out with
  | zero => simp [frontLoop] at h
  | succ fuel ih =>
    simp only [frontLoop, ne_eq, not_true_eq_false, if_false,
      Bool.false_eq_true, ite_false, ite_true, if_pos rfl] at h
    by_cases hA : s.head.slot = s.tail.slot ∧ (deref s s.head).next.isNil = true
    · rw [if_pos hA] at h
      cases h
      rfl
    · rw [if_neg hA] at h
      by_cases hB : (deref s s.head).next.isNil = true
      · rw [if_pos hB] at h
        exact ih _ _ h
      · rw [if_neg hB] at h
        cases h
        simp at hf

/-- A sequential Queue::back writes the output only in the iteration
whose consistency re-check passes, and that iteration returns true. -/
theorem backLoop_false_out {V : Type} (fuel : Nat) (s : QState V)
    (out : Option V) (res : Bool × Option V × QState V)
    (h : backLoop fuel s out = some res) (hf : res.1 = false) :
    res.2.1 = out := by
  induction fuel generalizing s out with
  | zero => simp [backLoop] at h
  | succ fuel ih =>
    simp only [backLoop, ne_eq, not_true_eq_false, if_false,
      Bool.false_eq_true, ite_false, ite_true, if_pos rfl] at h
    by_cases hB : (deref s s.tail).next.isNil = true
    · rw [if_neg (by simp [hB])] at h
      by_cases hA : s.head.slot = s.tail.slot
      · rw [if_pos hA] at h
        cases h
        rfl
      · rw [if_neg hA] at h
        simp only [and_self, if_true, ite_true] at h
        cases h
        simp at hf
    · rw [if_pos (by simp [hB])] at h
      exact ih _ _ h

end Queue

namespace LfList

/-- A sequential List::pop_front writes the output only in the branch
that returns true; a false return leaves it untouched. -/
theorem popFrontLoop_false_out {V : Type} (c f : Nat) (s : LState V)
    (prev : Nat) (out : Option V) (res : Bool × Option V × LState V)
    (h : popFrontLoop c f s prev out = some res) (hf : res.1 = false) :
    res.2.1 = out := by
  induction f generalizing s prev out with
  | zero => simp [popFrontLoop] at h
  | succ f ih =>
    simp only [popFrontLoop] at h
    split at h
    · exact Option.noConfusion h
    · split at h
      · cases h
        rfl
      · split at h
        · exact Option.noConfusion h
        · split at h
          · exact ih _ _ _ h
          · split at h
            · split at h
              · exact Option.noConfusion h
              · cases h
                simp at hf
            · exact ih _ _ _ h

/-- A sequential List::pop_back writes the output only in the branch that
returns true; a false return leaves it untouched. -/
theorem popBackLoop_false_out {V : Type} (c f : Nat) (s : LState V)
    (node : Nat) (out : Option V) (res : Bool × Option V × LState V)
    (h : popBackLoop c f s node out = some res) (hf : res.1 = false) :
    res.2.1 = out := by
  induction f generalizing s node out with
  | zero => simp [popBackLoop] at h
  | succ f ih =>
    simp only [popBackLoop] at h
    split at h
    · split at h
      · exact Option.noConfusion h
      · exact ih _ _ _ h
    · split at h
      · cases h
        rfl
      · split at h
        · split at h
          · exact Option.noConfusion h
          · split at h
            · exact Option.noConfusion h
            · cases h
              simp at hf
        · exact ih _ _ _ h

/-- A sequential List::erase marking loop writes the output only in the
winning branch, which returns true. -/
theorem eraseLoop_false_out {V : Type} (c f : Nat) (s : LState V)
    (node : Nat) (out : Option V) (res : Bool × Option V × LState V)
    (h : eraseLoop c f s node out = some res) (hf : res.1 = false) :
    res.2.1 = out := by
  induction f generalizing s out with
  | zero => simp [eraseLoop] at h
  | succ f ih =>
    simp only [eraseLoop] at h
    split at h
    · exact Option.noConfusion h
    · split at h
      · cases h
        rfl
      · split at h
        · split at h
          · exact Option.noConfusion h
          · split at h
            · exact Option.noConfusion h
            · cases h
              simp at hf
        · exact ih _ _ h

end LfList

/-- C5 (amended): in a sequential (uninterfered) execution, each of
Queue::pop, Queue::front, Queue::back, List::pop_front, List::pop_back
and List::erase leaves the caller's output argument untouched whenever it
returns false. -/
theorem output_untouched_on_absence :
    (∀ (V : Type) (fuel : Nat) (s : Queue.QState V) (out : Option V)
        (res : Bool × Option V × Queue.QState V),
      Queue.popLoop id fuel s out = some res → res.1 = false → res.2.1 = out) ∧
    (∀ (V : Type) (fuel : Nat) (s : Queue.QState V) (out : Option V)
        (res : Bool × Option V × Queue.QState V),
      Queue.frontLoop fuel s out = some res → res.1 = false → res.2.1 = out) ∧
    (∀ (V : Type) (fuel : Nat) (s : Queue.QState V) (out : Option V)
        (res : Bool × Option V × Queue.QState V),
      Queue.backLoop fuel s out = some res → res.1 = false → res.2.1 = out) ∧
    (∀ (V : Type) (f c : Nat) (s : LfList.LState V) (out : Option V)
        (res : Bool × Option V × LfList.LState V),
      LfList.pop_front f c s out = some res → res.1 = false → res.2.1 = out) ∧
    (∀ (V : Type) (f c : Nat) (s : LfList.LState V) (out : Option V)
        (res : Bool × Option V × LfList.LState V),
      LfList.pop_back f c s out = some res → res.1 = false → res.2.1 = out) ∧
    (∀ (V : Type) (f c g : Nat) (s : LfList.LState V) (cur : Nat)
        (out : Option V) (res : Bool × Option V × Nat × LfList.LState V),
      LfList.erase f c g s cur out = some res → res.1 = false →
        res.2.1 = out) := by
  refine ⟨fun V fuel s out res h hf => Queue.popLoop_false_out fuel s out res h hf,
    fun V fuel s out res h hf => Queue.frontLoop_false_out fuel s out res h hf,
    fun V fuel s out res h hf => Queue.backLoop_false_out fuel s out res h hf,
    fun V f c s out res h hf => LfList.popFrontLoop_false_out c f s s.head out res h hf,
    fun V f c s out res h hf => ?_,
    fun V f c g s cur out res h hf => ?_⟩
  · unfold LfList.pop_back at h
    split at h
    · exact Option.noConfusion h
    · exact LfList.popBackLoop_false_out c f s _ out res h hf
  · unfold LfList.erase at h
    split at h
    · exact Option.noConfusion h
    · split at h
      · exact Option.noConfusion h
      · cases h
        exact LfList.eraseLoop_false_out c f s cur out _ (by assumption) hf

/-- C5 counterexample: an interfered Queue::pop copies the value 42 into
the output, its head CAS then fails, and the retry observes the queue
empty: the call returns false with the output written (the initial output
was none). -/
theorem queue_pop_miss_writes_output :
    (Queue.popLoop Queue.qInterfere 3 Queue.qOne none).map
        (fun r => (r.1, r.2.1)) = some (false, some 42) ∧
    some 42 ≠ (none : Option Nat) := by
  refine ⟨by decide, by decide⟩

/-- Witness for the amended C5: each of the six operations at a concrete
absent-element state returns false with the output argument untouched. -/
theorem output_untouched_on_absence_witness :
    (Queue.popLoop id 1 Queue.qEmpty (some 7) =
      some (false, some 7, Queue.qEmpty)) ∧
    (Queue.frontLoop 1 Queue.qEmpty (some 7) =
      some (false, some 7, Queue.qEmpty)) ∧
    (Queue.backLoop 1 Queue.qEmpty (some 7) =
      some (false, some 7, Queue.qEmpty)) ∧
    (LfList.pop_front 1 3 LfList.listEmpty (some 7) =
      some (false, some 7, LfList.listEmpty)) ∧
    (LfList.pop_back 1 3 LfList.listEmpty (some 7) =
      some (false, some 7, LfList.listEmpty)) ∧
    (LfList.erase 1 1 1 LfList.listOneMarked 2 (some 7) =
      some (false, some 7, 1, LfList.listOneMarked)) ∧
    ((some 7 : Option Nat) = some 7) := by
  refine ⟨rfl, rfl, rfl, rfl, rfl, rfl, ?_⟩
  exact output_untouched_on_absence.1 Nat 1 Queue.qEmpty (some 7)
    (false, some 7, Queue.qEmpty) rfl rfl

namespace SpscDeque

/-- The construction loop does not change the array length. -/
theorem constructLoop_length {V : Type} (st : List (Option V))
    (cap hd size0 : Nat) (v : V) (k : Nat) :
    (constructLoop st cap hd size0 v k).length = st.length := by
  induction k with
  | zero => rfl
  | succ k ih => simp [constructLoop, ih]

/-- A slot already constructed stays constructed across the loop. -/
theorem constructLoop_keeps_some {V : Type} (st : List (Option V))
    (cap hd size0 : Nat) (v : V) (k idx : Nat)
    (h : (st.getD idx none).isSome = true) :
    ((constructLoop st cap hd size0 v k).getD idx none).isSome = true := by
  induction k with
  | zero => exact h
  | succ k ih =>
    simp only [constructLoop, List.getD_eq_getElem?_getD] at *
    rcases eq_or_ne ((hd + size0 + k) % cap) idx with he | hne
    · subst he
      by_cases hlt : (hd + size0 + k) % cap <
          (constructLoop st cap hd size0 v k).length
      · rw [List.getElem?_set_eq_of_lt _ hlt]
        rfl
      · rw [List.getElem?_set, if_pos rfl, if_neg hlt]
        have hnone : (constructLoop st cap hd size0 v k)[(hd + size0 + k) % cap]? =
            none := List.getElem?_eq_none (by omega)
        rw [hnone] at ih
        simp at ih
    · rw [List.getElem?_set_ne hne]
      exact ih

/-- Every slot the loop writes ends up constructed. -/
theorem constructLoop_writes_some {V : Type} (st : List (Option V))
    (cap hd size0 : Nat) (v : V) (k m : Nat) (hm : m < k)
    (hidx : (hd + size0 + m) % cap < st.length) :
    ((constructLoop st cap hd size0 v k).getD ((hd + size0 + m) % cap)
      none).isSome = true := by
  induction k with
  | zero => omega
  | succ k ih =>
    rcases eq_or_ne m k with rfl | hne
    · simp only [constructLoop]
      rw [List.getD_eq_getElem?_getD, List.getElem?_set_eq_of_lt _
        (by rw [constructLoop_length]; exact hidx)]
      rfl
    · have hmk : m < k := by omega
      simp only [constructLoop]
      rcases eq_or_ne ((hd + size0 + k) % cap) ((hd + size0 + m) % cap) with he | hne2
      · rw [List.getD_eq_getElem?_getD, he, List.getElem?_set_eq_of_lt _
          (by rw [constructLoop_length]; exact hidx)]
        rfl
      · rw [List.getD_eq_getElem?_getD, List.getElem?_set_ne hne2,
          ← List.getD_eq_getElem?_getD]
        exact ih hmk

/-- C9 counterexample: resize called with the current capacity does not
reallocate the backing array and does not reseat head to 0 (setCapacity
returns early), contradicting the claim that resize reallocates and
resets indices regardless of whether the size differs from the current
capacity. -/
theorem resize_equal_capacity_keeps_array :
    (resize dqEx 2 9).head = 1 ∧
    (resize dqEx 2 9).allocId = dqEx.allocId ∧
    (resize dqEx 2 9).head ≠ 0 ∧
    (resize dqEx 2 9).tail = 1 ∧
    (resize dqEx 2 9).tail ≠ 2 ∧
    (resize dqEx 2 9).size = 2 := by decide

/-- C9 (amended): resize reallocates the backing array and reseats head
to 0 only when the requested size differs from the current capacity (it
returns from setCapacity at once when they are equal); in either case it
sets the element count to the requested size, reseats tail onto head, and
leaves every one of the size ring slots constructed. -/
theorem resize_spec {V : Type} (s : DState V) (n : Nat) (v : V)
    (hlen : s.store.length = s.capacity)
    (hsz : s.size ≤ s.capacity)
    (hact : ∀ k, k < s.size →
      (s.store.getD ((s.head + k) % s.capacity) none).isSome = true) :
    (resize s n v).size = n ∧
    (resize s n v).tail = (resize s n v).head ∧
    (n = s.capacity → (resize s n v).allocId = s.allocId ∧
      (resize s n v).head = s.head ∧ (resize s n v).capacity = s.capacity) ∧
    (n ≠ s.capacity → (resize s n v).allocId = s.allocId + 1 ∧
      (resize s n v).head = 0 ∧ (resize s n v).capacity = n) ∧
    (resize s n v).store.length = (resize s n v).capacity ∧
    (∀ k, k < n → ((resize s n v).store.getD
        (((resize s n v).head + k) % (resize s n v).capacity)
        none).isSome = true) := by
  by_cases hcap : n = s.capacity
  · have hset : setCapacity s n = s := by simp [setCapacity, hcap]
    have hres : resize s n v =
        { s with
          store := constructLoop s.store s.capacity s.head s.size v
            (s.capacity - s.size),
          size := n,
          tail := s.head } := by
      simp only [resize, hset]
    rw [hres]
    refine ⟨rfl, rfl, fun _ => ⟨rfl, rfl, rfl⟩, fun hq => absurd hcap hq, ?_, ?_⟩
    · simp [constructLoop_length, hlen]
    · intro k hk
      have hcappos : 0 < s.capacity := by omega
      rcases lt_or_le k s.size with hks | hks
      · exact constructLoop_keeps_some _ _ _ _ _ _ _ (hact k hks)
      · have hm : k - s.size < s.capacity - s.size := by omega
        have hidx : (s.head + s.size + (k - s.size)) % s.capacity =
            (s.head + k) % s.capacity := by
          congr 1
          omega
        have := constructLoop_writes_some s.store s.capacity s.head s.size v
          (s.capacity - s.size) (k - s.size) hm
          (by rw [hidx, hlen]; exact Nat.mod_lt _ hcappos)
        rw [hidx] at this
        exact this
  · have hset : setCapacity s n =
        ⟨(List.range n).map (fun j =>
            if j < (if n < s.size then n else s.size) then
              s.store.getD (s.ringIndex (s.head + j)) none
            else none),
          n, if n < s.size then n else s.size, 0,
          if n < s.size then n else s.size, s.allocId + 1⟩ := by
      simp [setCapacity, hcap]
    have hres : resize s n v =
        { setCapacity s n with
          store := constructLoop (setCapacity s n).store n 0
            (if n < s.size then n else s.size) v
            (n - (if n < s.size then n else s.size)),
          size := n,
          tail := 0 } := by
      simp only [resize, hset]
    rw [hres, hset]
    dsimp only
    have hsle : (if n < s.size then n else s.size) ≤ n := by
      split <;> omega
    refine ⟨rfl, rfl, fun hq => absurd hq hcap, fun _ => ⟨rfl, rfl, rfl⟩, ?_, ?_⟩
    · simp [constructLoop_length]
    · intro k hk
      have hnpos : 0 < n := by omega
      have hlenN : ((List.range n).map (fun j =>
          if j < (if n < s.size then n else s.size) then
            s.store.getD (s.ringIndex (s.head + j)) none
          else none)).length = n := by simp
      rcases lt_or_le k (if n < s.size then n else s.size) with hks | hks
      · apply constructLoop_keeps_some
        rw [List.getD_eq_getElem?_getD]
        have hzk : (0 + k) % n = k := by
          rw [Nat.zero_add]
          exact Nat.mod_eq_of_lt hk
        rw [hzk, List.getElem?_map, List.getElem?_range hk]
        simp only [Option.map_some', Option.getD_some, if_pos hks]
        apply hact
        rcases lt_or_le n s.size with h | h
        · have : k < n := by
            simpa [if_pos h] using hks
          omega
        · have hcond : ¬ n < s.size := by omega
          simpa [if_neg hcond] using hks
      · have hm : k - (if n < s.size then n else s.size) <
            n - (if n < s.size then n else s.size) := by omega
        have hidx : (0 + (if n < s.size then n else s.size) +
            (k - (if n < s.size then n else s.size))) % n = (0 + k) % n := by
          congr 1
          omega
        have hkmod : (0 + k) % n = k := by
          rw [Nat.zero_add]
          exact Nat.mod_eq_of_lt hk
        have := constructLoop_writes_some _ n 0
          (if n < s.size then n else s.size) v
          (n - (if n < s.size then n else s.size))
          (k - (if n < s.size then n else s.size)) hm
          (by rw [hidx, hkmod, hlenN]; exact hk)
        rw [hidx, hkmod] at this
        rw [hkmod]
        exact this

/-- Witness for the amended C9 at the concrete deque: its well-formedness
hypotheses hold, resizing to 3 reallocates and reseats head to 0. -/
theorem resize_spec_witness :
    dqEx.store.length = dqEx.capacity ∧ dqEx.size ≤ dqEx.capacity ∧
    (resize dqEx 3 9).head = 0 ∧ (resize dqEx 3 9).allocId = dqEx.allocId + 1 := by
  have h := resize_spec dqEx 3 9 (by decide) (by decide) (by decide)
  exact ⟨by decide, by decide, (h.2.2.2.1 (by decide)).2.1, (h.2.2.2.1 (by decide)).1⟩

end SpscDeque

end Honeycomb
